import Mathlib

/-!
Verification of the category-aggregation service of the tmdb-api-tester
repository (`CategoryService`, file `src/services/category.service.js`,
given as `src/unnamed/part_009`, together with the category mapping table
in `src/config/categories.js`).

Shallow-embedding conventions used throughout:

 - JS numbers carried by provider records (`popularity`, `vote_average`,
   `vote_count`) are modelled as `Option ℚ` / `Option ℤ`; a missing field
   (`undefined`) makes every `<`/`>`/`>=` comparison false, exactly as the
   JS `NaN` comparison semantics does.  The helpers `jsGtQ`, `jsGeQ`,
   `jsLtInt`, `jsGtInt` encode this.
 - Dates are modelled at day granularity with the process clock at UTC:
   a calendar date is converted by `daysFromCivil` to the number of days
   since 1970-01-01, which is `Date.getTime()` of its UTC midnight divided
   by 86400000.  `parseISODate` models `new Date(string)` on the
   `YYYY-MM-DD` strings that TMDB delivers; every other string yields
   JavaScript's `Invalid Date`, which we model as `none`.
 - `getDaysSinceRelease`/`getDaysUntilRelease` return `null` for a missing
   date string and `NaN` (via `Math.floor`/`Math.ceil` of `NaN`) for a
   present-but-unparseable one.  The type `JSDays` has the three cases;
   `JSDays.jle` is the JS `<=` against an integer constant, where
   `null <= k` coerces `null` to `0` and any comparison with `NaN` is
   false.
 - JS `Array.prototype.sort` (ES2019+) is a stable sort; for a consistent
   comparator its output is uniquely determined, so it is modelled by
   Mathlib's stable `List.insertionSort` on the `cmp a b <= 0` relation.
-/

namespace TmdbTester

/-- JS `x > c` on a possibly-missing number field: `undefined > c` is false. -/
def jsGtQ (x : Option ℚ) (c : ℚ) : Bool :=
  match x with
  | some v => decide (c < v)
  | none => false

/-- JS `x >= c` on a possibly-missing number field: `undefined >= c` is false. -/
def jsGeQ (x : Option ℚ) (c : ℚ) : Bool :=
  match x with
  | some v => decide (c ≤ v)
  | none => false

/-- JS `x < c` on a possibly-missing integer field: `undefined < c` is false. -/
def jsLtInt (x : Option ℤ) (c : ℤ) : Bool :=
  match x with
  | some v => decide (v < c)
  | none => false

/-- JS `x > c` on a possibly-missing integer field: `undefined > c` is false. -/
def jsGtInt (x : Option ℤ) (c : ℤ) : Bool :=
  match x with
  | some v => decide (c < v)
  | none => false

/-- JS `x || 0` on a possibly-missing number field. -/
def orZeroQ (x : Option ℚ) : ℚ := x.getD 0

/-- A proleptic-Gregorian calendar date, as parsed from a date string. -/
structure CivilDate where
  year : ℤ
  month : ℤ
  day : ℤ
deriving DecidableEq

/-- Value of a decimal digit character. -/
def digitVal (c : Char) : Option ℕ :=
  if c.isDigit then some (c.toNat - 48) else none

/-- Parse a nonempty all-digit character list as a natural number
(accumulator form). -/
def parseDigitsAux : List Char → ℕ → Option ℕ
  | [], acc => some acc
  | c :: cs, acc =>
    match digitVal c with
    | some d => parseDigitsAux cs (acc * 10 + d)
    | none => none

/-- Parse a nonempty all-digit character list as a natural number. -/
def parseDigits (cs : List Char) : Option ℕ :=
  if cs.isEmpty then none else parseDigitsAux cs 0

/-- Split a character list on the hyphen character. -/
def splitDash : List Char → List (List Char)
  | [] => [[]]
  | c :: cs =>
    if c = '-' then [] :: splitDash cs
    else
      match splitDash cs with
      | [] => [[c]]
      | p :: ps => (c :: p) :: ps

/-- Model of JS `new Date(dateString)` at day granularity for the date
strings this service handles: a `YYYY-MM-DD` string parses to its civil
date, anything else is JavaScript's `Invalid Date`, modelled as `none`. -/
def parseISODate (s : String) : Option CivilDate :=
  match splitDash s.toList with
  | [ys, ms, ds] =>
    match parseDigits ys, parseDigits ms, parseDigits ds with
    | some y, some m, some d =>
      if 1 ≤ m ∧ m ≤ 12 ∧ 1 ≤ d ∧ d ≤ 31 then
        some ⟨(y : ℤ), (m : ℤ), (d : ℤ)⟩
      else none
    | _, _, _ => none
  | _ => none

/-- Days since 1970-01-01 of a civil date (Howard Hinnant's `days_from_civil`
algorithm); this equals `new Date("YYYY-MM-DD").getTime() / 86400000`. -/
def daysFromCivil (dt : CivilDate) : ℤ :=
  let y := if dt.month ≤ 2 then dt.year - 1 else dt.year
  let era := (if 0 ≤ y then y else y - 399) / 400
  let yoe := y - era * 400
  let mp := (dt.month + 9) % 12
  let doy := (153 * mp + 2) / 5 + dt.day - 1
  let doe := yoe * 365 + yoe / 4 - yoe / 100 + doy
  era * 146097 + doe - 719468

/-- The day number of a date string, when it parses. -/
def dateValue (s : String) : Option ℤ :=
  (parseISODate s).map daysFromCivil

/-- Long English month name, as produced by
`toLocaleDateString('en-US', { month: 'long' })`. -/
def monthName (m : ℤ) : String :=
  if m = 1 then "January"
  else if m = 2 then "February"
  else if m = 3 then "March"
  else if m = 4 then "April"
  else if m = 5 then "May"
  else if m = 6 then "June"
  else if m = 7 then "July"
  else if m = 8 then "August"
  else if m = 9 then "September"
  else if m = 10 then "October"
  else if m = 11 then "November"
  else "December"

/-- `formatReleaseDate` (part_009 lines 945-962): a missing (or empty, hence
falsy) date string renders as `"TBA"`; a present but unparseable string is
returned unchanged (`isNaN(date.getTime())` branch); a valid date renders
as `"<long month> <day>, <year>"` per `toLocaleDateString('en-US', ...)`. -/
def formatReleaseDate (dateString : Option String) : String :=
  match dateString with
  | none => "TBA"
  | some s =>
    if s = "" then "TBA"
    else
      match parseISODate s with
      | none => s
      | some d => monthName d.month ++ " " ++ toString d.day ++ ", " ++ toString d.year

/-- A TMDB provider record, normalized to the fields the category service
reads.  `Option` marks fields that a raw JS record may lack.  `tagline` is
the field the enrichment step adds. -/
structure Movie where
  id : ℤ
  popularity : Option ℚ
  vote_average : Option ℚ
  vote_count : Option ℤ
  release_date : Option String
  first_air_date : Option String
  production_companies : List String
  tagline : Option String
deriving DecidableEq

/-- Result of `getDaysSinceRelease`/`getDaysUntilRelease`: a JS number, or
`null` (missing date string), or `NaN` (present but unparseable string). -/
inductive JSDays where
  | val (d : ℤ)
  | nullv
  | nanv
deriving DecidableEq

/-- JS `x <= k` where `x` is a day count, `null`, or `NaN`: `null` coerces
to `0`, every comparison against `NaN` is false. -/
def JSDays.jle (x : JSDays) (k : ℤ) : Bool :=
  match x with
  | .val d => decide (d ≤ k)
  | .nullv => decide ((0 : ℤ) ≤ k)
  | .nanv => false

/-- `getDaysSinceRelease` (part_009 lines 528-544): `null` for a missing
(falsy) date string, otherwise the floor of the midnight-to-midnight
difference in days, which at day granularity is exact; an unparseable
string gives `NaN`. -/
def getDaysSinceRelease (today : ℤ) (dateString : Option String) : JSDays :=
  match dateString with
  | none => .nullv
  | some s =>
    if s = "" then .nullv
    else
      match dateValue s with
      | none => .nanv
      | some d => .val (today - d)

/-- `getDaysUntilRelease` (part_009 lines 996-1012): `null` for a missing
date string, otherwise the ceiling of the day difference (exact at day
granularity); an unparseable string gives `NaN`. -/
def getDaysUntilRelease (today : ℤ) (dateString : Option String) : JSDays :=
  match dateString with
  | none => .nullv
  | some s =>
    if s = "" then .nullv
    else
      match dateValue s with
      | none => .nanv
      | some d => .val (d - today)

/-- `isUpcoming` (part_009 lines 978-989): false for a missing (falsy) date
string; for a present string, `new Date(s) >= today` with `today` reset to
start of day — false when the string is unparseable (`NaN >= x`). -/
def isUpcoming (today : ℤ) (dateString : Option String) : Bool :=
  match dateString with
  | none => false
  | some s =>
    if s = "" then false
    else
      match dateValue s with
      | none => false
      | some d => decide (today ≤ d)

/-- `calculateTrendingScore` (part_009 lines 1076-1106).  `rank` is the
0-based position the caller passes (`index` in `getTrendingMovies`).  The
recency branch runs only when `movie.release_date` is truthy. -/
def calculateTrendingScore (today : ℤ) (movie : Movie) (rank : ℕ) : ℤ :=
  let base : ℤ := 100 - (rank : ℤ) * 5
  let popBonus : ℤ :=
    if jsGtQ movie.popularity 100 then 10
    else if jsGtQ movie.popularity 50 then 5
    else 0
  let voteBonus : ℤ :=
    if jsGeQ movie.vote_average 8 && jsGtInt movie.vote_count 1000 then 10
    else if jsGeQ movie.vote_average 7 && jsGtInt movie.vote_count 500 then 5
    else 0
  let recencyBonus : ℤ :=
    match movie.release_date with
    | none => 0
    | some s =>
      if s = "" then 0
      else
        let d := getDaysSinceRelease today (some s)
        if d.jle 30 then 15
        else if d.jle 90 then 10
        else if d.jle 180 then 5
        else 0
  max (min (base + popBonus + voteBonus + recencyBonus) 100) 1

/-- The `US` entry of a watch-providers response; each monetization tier is
a possibly-absent array of provider ids. -/
structure USProviders where
  flatrate : Option (List ℤ)
  ads : Option (List ℤ)
  rent : Option (List ℤ)
  buy : Option (List ℤ)
deriving DecidableEq

/-- The region map of a watch-providers response (`results.US` is all the
service reads). -/
structure ProviderRegions where
  us : Option USProviders
deriving DecidableEq

/-- A watch-providers response; `results` itself may be absent. -/
structure WatchProviders where
  results : Option ProviderRegions
deriving DecidableEq

/-- `hasStreamingAvailability` (part_009 lines 1040-1049): true iff the US
entry exists and has a `flatrate` or `ads` array (arrays are truthy in JS
even when empty). -/
def hasStreamingAvailability (wp : WatchProviders) : Bool :=
  match wp.results with
  | none => false
  | some regions =>
    match regions.us with
    | none => false
    | some us => us.flatrate.isSome || us.ads.isSome

/-- Lower-case an ASCII letter, as `toLowerCase` does on the names used. -/
def lowerChar (c : Char) : Char :=
  if 'A' ≤ c ∧ c ≤ 'Z' then Char.ofNat (c.toNat + 32) else c

/-- Character-list version of `String.prototype.startsWith`. -/
def startsWithChars : List Char → List Char → Bool
  | [], _ => true
  | _ :: _, [] => false
  | a :: as, b :: bs => a = b && startsWithChars as bs

/-- Character-list version of `String.prototype.includes`. -/
def containsSub : List Char → List Char → Bool
  | needle, [] => needle.isEmpty
  | needle, c :: cs => startsWithChars needle (c :: cs) || containsSub needle cs

/-- The streaming-studio name fragments of `isOTTOriginal` condition 3. -/
def streamingCompanies : List String :=
  ["Netflix", "Amazon Studios", "Apple Original Films", "Disney+", "HBO Max", "Hulu Originals"]

/-- Condition 3 of `isOTTOriginal`: some production-company name contains a
known streaming-studio name, case-insensitively. -/
def hasStreamingCompany (movie : Movie) : Bool :=
  movie.production_companies.any fun companyName =>
    streamingCompanies.any fun streaming =>
      containsSub ((streaming.toList.map lowerChar)) (companyName.toList.map lowerChar)

/-- `isOTTOriginal` (part_009 lines 427-475): the disjunctive OTT-original
heuristic.  `movie.vote_count < 500` is false when the field is missing
(JS `undefined < 500`); condition 4 uses `daysSinceRelease <= 90`, where a
`null` day count (missing date) coerces to `0` and so passes. -/
def isOTTOriginal (today : ℤ) (movie : Movie) (wp : WatchProviders) : Bool :=
  if jsLtInt movie.vote_count 500 then true
  else
    let streamingOnly :=
      match wp.results with
      | none => false
      | some regions =>
        match regions.us with
        | none => false
        | some us =>
          let hasStreaming := us.flatrate.isSome || us.ads.isSome
          let hasRental := us.rent.isSome || us.buy.isSome
          hasStreaming && !hasRental
    if streamingOnly then true
    else if hasStreamingCompany movie then true
    else if (getDaysSinceRelease today movie.release_date).jle 90 && hasStreamingAvailability wp then true
    else false

/-- `calculateStreamingReleaseRecency` (part_009 lines 553-593): base 5,
plus recency, popularity, vote and subscription-availability bonuses,
capped at 10 by `Math.min`.  A `null` day count passes `<= 3` (JS `null`
coerces to `0`); `NaN` fails every tier. -/
def calculateStreamingReleaseRecency (movie : Movie) (wp : WatchProviders) (days : JSDays) : ℤ :=
  let recencyBonus : ℤ :=
    if days.jle 3 then 4
    else if days.jle 7 then 3
    else if days.jle 14 then 2
    else if days.jle 30 then 1
    else 0
  let popBonus : ℤ :=
    if jsGtQ movie.popularity 100 then 2
    else if jsGtQ movie.popularity 50 then 1
    else 0
  let voteBonus : ℤ :=
    if jsGtInt movie.vote_count 500 && jsGeQ movie.vote_average 7 then 1 else 0
  let streamBonus : ℤ :=
    match wp.results with
    | none => 0
    | some regions =>
      match regions.us with
      | none => 0
      | some us =>
        match us.flatrate with
        | none => 0
        | some fl => if 0 < fl.length then 1 + (if 1 < fl.length then 1 else 0) else 0
  min (5 + recencyBonus + popBonus + voteBonus + streamBonus) 10

/-- Accumulator form of the de-duplication step: keep an element iff its id
has not been seen yet. -/
def dedupeAux : List Movie → List ℤ → List Movie
  | [], _ => []
  | m :: rest, seen =>
    if m.id ∈ seen then dedupeAux rest seen
    else m :: dedupeAux rest (m.id :: seen)

/-- The de-duplication step of `getTrendingMovies` (part_009 lines 49-52)
and `getStreamingNow` (lines 249-252):
`arr.filter((movie, index, self) => index === self.findIndex(m => m.id === movie.id))`,
i.e. keep exactly the first occurrence of each id, in order. -/
def dedupeById (l : List Movie) : List Movie :=
  dedupeAux l []

/-- One item of `enrichWithTaglines` (tmdb.service.js lines 153-203): an
item with a falsy id is passed through; otherwise the item is returned with
a `tagline` field, `''` when the detail fetch fails or carries no tagline.
The oracle `tag` gives the outcome of the per-item detail fetch. -/
def enrichMovie (tag : ℤ → Option String) (m : Movie) : Movie :=
  if m.id = 0 then m else { m with tagline := some ((tag m.id).getD "") }

/-- `enrichWithTaglines`: a per-item, order- and count-preserving map (the
batching by 5 does not change order, and a per-item failure degrades to an
empty tagline). -/
def enrichWithTaglines (tag : ℤ → Option String) (l : List Movie) : List Movie :=
  l.map (enrichMovie tag)

/-- An entry of the trending-movies result with the metadata added at
part_009 lines 61-68 (`is_currently_trending: true`,
`trending_period: 'week'` and `week_trending_position = trending_rank` are
constants and omitted). -/
structure TrendingItem where
  movie : Movie
  trending_rank : ℤ
  trending_score : ℤ
deriving DecidableEq

/-- Build the trending item at 0-based position `idx`: rank is `idx + 1`,
score is `calculateTrendingScore(movie, idx)`. -/
def mkTrendingItem (today : ℤ) (m : Movie) (idx : ℕ) : TrendingItem :=
  ⟨m, (idx : ℤ) + 1, calculateTrendingScore today m idx⟩

/-- The `enrichedMovies.map((movie, index) => ...)` step of
`getTrendingMovies`, with the running 0-based index made explicit. -/
def annotateTrending (today : ℤ) : ℕ → List Movie → List TrendingItem
  | _, [] => []
  | i, m :: rest => mkTrendingItem today m i :: annotateTrending today (i + 1) rest

/-- The popularity-descending sort relation of `getTrendingMovies`:
comparator `(b.popularity || 0) - (a.popularity || 0)`, so `a` may stay
before `b` iff `(b.popularity || 0) <= (a.popularity || 0)`. -/
def popDescLe (a b : Movie) : Prop :=
  orZeroQ b.popularity ≤ orZeroQ a.popularity

instance : DecidableRel popDescLe := fun a b =>
  inferInstanceAs (Decidable (orZeroQ b.popularity ≤ orZeroQ a.popularity))

/-- `getTrendingMovies` (part_009 lines 20-88): the page fetches are
`allSettled` and a failed or null page contributes nothing (`none` input);
results are concatenated, de-duplicated by id, sorted by descending
popularity, enriched with taglines, and annotated with rank and score.
The envelope fields (`total_results = results.length`, `total_pages = 1`,
`page = 1`) are not modelled. -/
def getTrendingMovies (today : ℤ) (tag : ℤ → Option String)
    (pages : List (Option (List Movie))) : List TrendingItem :=
  let allTrendingMovies := (pages.filterMap id).flatten
  let uniqueMovies := dedupeById allTrendingMovies
  let sorted := uniqueMovies.insertionSort popDescLe
  let enriched := enrichWithTaglines tag sorted
  annotateTrending today 0 enriched

/-- An entry of the anticipated-movies result (part_009 lines 157-162). -/
structure AnticipatedItem where
  movie : Movie
  release_date_formatted : String
  is_upcoming : Bool
  days_until_release : JSDays
deriving DecidableEq

/-- The anticipated-movies envelope part that the claims mention. -/
structure AnticipatedResponse where
  results : List AnticipatedItem
  total_results : ℤ
deriving DecidableEq

/-- The filter of `getAnticipatedMovies` (part_009 lines 146-151): a falsy
`release_date` is excluded; otherwise keep iff
`new Date(release_date) >= today` — false for an unparseable date. -/
def anticipatedKeep (today : ℤ) (m : Movie) : Bool :=
  match m.release_date with
  | none => false
  | some s =>
    if s = "" then false
    else
      match dateValue s with
      | none => false
      | some d => decide (today ≤ d)

/-- The annotation step of `getAnticipatedMovies`: formatted date,
`is_upcoming: true` (a constant in this code path), and
`days_until_release`. -/
def mkAnticipatedItem (today : ℤ) (m : Movie) : AnticipatedItem :=
  ⟨m, formatReleaseDate m.release_date, true, getDaysUntilRelease today m.release_date⟩

/-- The release-date-ascending sort relation of `getAnticipatedMovies`
(comparator `new Date(a.release_date) - new Date(b.release_date)`).  Every
kept item has a parseable date; in the residual invalid-date cases the JS
comparator yields `NaN`, which `SortCompare` turns into `+0` (keep order),
modelled by `True`. -/
def anticipatedLe (a b : AnticipatedItem) : Prop :=
  match a.movie.release_date.bind dateValue, b.movie.release_date.bind dateValue with
  | some x, some y => x ≤ y
  | _, _ => True

instance : DecidableRel anticipatedLe := fun a b => by
  unfold anticipatedLe
  exact match a.movie.release_date.bind dateValue, b.movie.release_date.bind dateValue with
  | some _, some _ => inferInstanceAs (Decidable (_ ≤ _))
  | some _, none => inferInstanceAs (Decidable True)
  | none, _ => inferInstanceAs (Decidable True)

/-- `getAnticipatedMovies` (part_009 lines 136-184): filter to dates on or
after the start of today, enrich, annotate, sort ascending by release
date, and overwrite `total_results` with the post-filter count
(`response.total_results = response.results.length`).  `providerTotal` is
the provider's original `total_results`, which the code discards. -/
def getAnticipatedMovies (today : ℤ) (tag : ℤ → Option String)
    (results : List Movie) (_providerTotal : ℤ) : AnticipatedResponse :=
  let filtered := results.filter (anticipatedKeep today)
  let enriched := enrichWithTaglines tag filtered
  let annotated := enriched.map (mkAnticipatedItem today)
  let sorted := annotated.insertionSort anticipatedLe
  { results := sorted, total_results := (sorted.length : ℤ) }

/-- An entry of the upcoming-movies (or upcoming-TV) result
(part_009 lines 832-836). -/
structure UpcomingItem where
  movie : Movie
  release_date_formatted : String
  is_upcoming : Bool
deriving DecidableEq

/-- `getUpcomingMovies` (part_009 lines 820-848): enrich the provider's
upcoming page and annotate each movie with a formatted date and the
`isUpcoming` flag; nothing is filtered here. -/
def getUpcomingMovies (today : ℤ) (tag : ℤ → Option String)
    (results : List Movie) : List UpcomingItem :=
  (enrichWithTaglines tag results).map fun m =>
    ⟨m, formatReleaseDate m.release_date, isUpcoming today m.release_date⟩

/-- An entry of the streaming-now result with the annotations the claims
mention (part_009 lines 266-279).  `watch_providers`, `streaming_platform`,
the `is_recent_release`/`is_ultra_recent`/`is_brand_new`/
`likely_new_to_streaming` flags and the randomized
`estimated_streaming_add_date` are not referenced by any claim and are
omitted. -/
structure OTTItem where
  movie : Movie
  is_ott_original : Bool
  days_since_release : JSDays
  streaming_release_score : ℤ
deriving DecidableEq

/-- The annotation pushed for a qualifying streaming-now candidate. -/
def mkOTTItem (m : Movie) (days : JSDays) (score : ℤ) : OTTItem :=
  ⟨m, true, days, score⟩

/-- The `for (const movie of uniqueMovies)` loop of `getStreamingNow`
(part_009 lines 255-290): fetch watch providers (a throwing fetch hits the
`catch` and skips the movie, including the break check), classify, score,
apply the `score >= 6 || daysSinceRelease <= 14` gate, and stop once 20
movies have been collected (the length check runs after each non-throwing
iteration). -/
def processOTTCandidates (today : ℤ) (wpf : ℤ → Except Unit WatchProviders) :
    List Movie → List OTTItem → List OTTItem
  | [], acc => acc
  | m :: rest, acc =>
    match wpf m.id with
    | .error _ => processOTTCandidates today wpf rest acc
    | .ok providers =>
      let acc2 :=
        if isOTTOriginal today m providers then
          let days := getDaysSinceRelease today m.release_date
          let score := calculateStreamingReleaseRecency m providers days
          if 6 ≤ score ∨ days.jle 14 then acc ++ [mkOTTItem m days score] else acc
        else acc
      if 20 ≤ acc2.length then acc2 else processOTTCandidates today wpf rest acc2

/-- JS `a.days_since_release || 999999` in the streaming-now comparator:
`null`, `NaN` — and also the number `0`, which is falsy — are replaced by
`999999`. -/
def JSDays.orDefault : JSDays → ℤ
  | .val d => if d = 0 then 999999 else d
  | .nullv => 999999
  | .nanv => 999999

/-- The tertiary sort key `new Date(x.release_date || '1900-01-01')` of the
streaming-now comparator: a falsy date falls back to 1900-01-01, an
unparseable one is `Invalid Date` (`none`, i.e. JS `NaN` timestamp). -/
def sortDateKey (rd : Option String) : Option ℤ :=
  match rd with
  | none => dateValue "1900-01-01"
  | some s => if s = "" then dateValue "1900-01-01" else dateValue s

/-- A JS number that may be `NaN`, as returned by the streaming-now
comparator. -/
inductive JSNum where
  | num (q : ℚ)
  | nan
deriving DecidableEq

/-- The composite streaming-now comparator (part_009 lines 293-333):
score descending; then days-since-release with the `<=3`, `<=7`, `<=14`
tiers dominating, then exact day counts ascending (with the `|| 999999`
fallback on falsy day counts); then exact release date descending (where
an unparseable date yields a `NaN` timestamp, hence a `NaN` comparator
value); then popularity descending.  `x.streaming_release_score || 0` is
the identity on integers (`0 || 0` is `0`) and is modelled as such. -/
def streamCmp (a b : OTTItem) : JSNum :=
  let scoreA := a.streaming_release_score
  let scoreB := b.streaming_release_score
  if scoreA ≠ scoreB then .num ((scoreB : ℚ) - (scoreA : ℚ))
  else
    let daysA := a.days_since_release.orDefault
    let daysB := b.days_since_release.orDefault
    if daysA ≤ 3 ∧ 3 < daysB then .num (-1)
    else if daysB ≤ 3 ∧ 3 < daysA then .num 1
    else if daysA ≤ 7 ∧ 7 < daysB then .num (-1)
    else if daysB ≤ 7 ∧ 7 < daysA then .num 1
    else if daysA ≤ 14 ∧ 14 < daysB then .num (-1)
    else if daysB ≤ 14 ∧ 14 < daysA then .num 1
    else if daysA ≠ daysB then .num ((daysA : ℚ) - (daysB : ℚ))
    else
      match sortDateKey a.movie.release_date, sortDateKey b.movie.release_date with
      | some dateA, some dateB =>
        if dateA ≠ dateB then .num ((dateB : ℚ) - (dateA : ℚ))
        else .num (orZeroQ b.movie.popularity - orZeroQ a.movie.popularity)
      | _, _ => .nan

/-- The sort relation induced by the comparator: `a` may stay before `b`
iff `streamCmp a b <= 0`; a `NaN` comparator value is turned into `+0` by
the ES `SortCompare` operation, i.e. "equal". -/
def streamLe (a b : OTTItem) : Prop :=
  match streamCmp a b with
  | .num q => q ≤ 0
  | .nan => True

instance : DecidableRel streamLe := fun a b => by
  unfold streamLe
  exact match streamCmp a b with
  | .num _ => inferInstanceAs (Decidable (_ ≤ _))
  | .nan => inferInstanceAs (Decidable True)

/-- Enrichment of the sorted streaming-now list: a per-item map adding a
tagline, preserving every other field. -/
def enrichOTTWithTaglines (tag : ℤ → Option String) (l : List OTTItem) : List OTTItem :=
  l.map fun x => { x with movie := enrichMovie tag x.movie }

/-- `getStreamingNow` (part_009 lines 191-353): the platform/window batch
fetches are best-effort (`getOTTOriginalsBatch` catches and returns `[]`,
and `allSettled` collects them), so `batches` is the list of per-batch
result arrays; they are concatenated, de-duplicated by id, classified and
gated by `processOTTCandidates`, sorted with the composite comparator, and
enriched with taglines.  The envelope (`total_results = results.length`,
`page = 1`) is not modelled. -/
def getStreamingNow (today : ℤ) (wpf : ℤ → Except Unit WatchProviders)
    (tag : ℤ → Option String) (batches : List (List Movie)) : List OTTItem :=
  let allMovies := batches.flatten
  let uniqueMovies := dedupeById allMovies
  let ottOriginalMovies := processOTTCandidates today wpf uniqueMovies []
  let sorted := ottOriginalMovies.insertionSort streamLe
  enrichOTTWithTaglines tag sorted

/-- The data part of an upcoming-movies or upcoming-TV sub-result consumed
by `getCombinedUpcoming`. -/
structure UpcomingData where
  results : List UpcomingItem
  total_results : ℤ
  total_pages : ℤ
deriving DecidableEq

/-- An entry of the combined-upcoming result, tagged with its media type
(part_009 lines 912-915). -/
structure CombinedItem where
  item : UpcomingItem
  media_type : String
deriving DecidableEq

/-- The combined-upcoming envelope. -/
structure CombinedResponse where
  results : List CombinedItem
  total_results : ℤ
  total_pages : ℤ
deriving DecidableEq

/-- JS `a.release_date || a.first_air_date`: the first truthy of the two
date strings. -/
def releaseOrAir (m : Movie) : Option String :=
  match m.release_date with
  | some s => if s = "" then m.first_air_date else some s
  | none => m.first_air_date

/-- The sort key `new Date(x.release_date || x.first_air_date)` of the
combined-upcoming comparator; `none` is JS `Invalid Date`. -/
def combinedKey (x : CombinedItem) : Option ℤ :=
  match releaseOrAir x.item.movie with
  | none => none
  | some s => if s = "" then none else dateValue s

/-- The date-ascending sort relation of `getCombinedUpcoming` (comparator
`new Date(a.release_date || a.first_air_date) - new Date(b.…)`): for two
valid dates this is `dateA - dateB`; when either date is missing or
unparseable the subtraction is `NaN`, which the ES `SortCompare` operation
maps to `+0`, i.e. "keep order" — an undated item compares equal to
everything, modelled by `True`.  Note this makes the comparator
inconsistent on inputs that interleave undated and dated items. -/
def combinedLe (a b : CombinedItem) : Prop :=
  match combinedKey a, combinedKey b with
  | some x, some y => x ≤ y
  | _, _ => True

instance : DecidableRel combinedLe := fun a b => by
  unfold combinedLe
  exact match combinedKey a, combinedKey b with
  | some _, some _ => inferInstanceAs (Decidable (_ ≤ _))
  | some _, none => inferInstanceAs (Decidable True)
  | none, _ => inferInstanceAs (Decidable True)

/-- Proof device (not part of the embedding): the total order on combined
items by date key, with invalid keys at day 0.  On a list whose items all
carry valid keys it agrees pairwise with `combinedLe`, which is how the
restricted sortedness of `getCombinedUpcoming` is established. -/
def combinedKeyLe (a b : CombinedItem) : Prop :=
  (combinedKey a).getD 0 ≤ (combinedKey b).getD 0

instance : DecidableRel combinedKeyLe := fun _ _ =>
  inferInstanceAs (Decidable (_ ≤ _))

/-- `getCombinedUpcoming` (part_009 lines 903-938): `Promise.all` over the
two sub-fetches — if either rejects the whole operation rejects (the error
is wrapped in a `CATEGORY_SERVICE_ERROR`, carried here as `Unit`).  On
success, tag each sub-result's items with its media type, concatenate,
sort ascending by release-or-air date, and report the sum of the two
`total_results` and the max of the two `total_pages`. -/
def getCombinedUpcoming (mres tres : Except Unit UpcomingData) : Except Unit CombinedResponse :=
  match mres, tres with
  | .error e, _ => .error e
  | _, .error e => .error e
  | .ok mv, .ok tv =>
    let combinedResults :=
      mv.results.map (fun x => CombinedItem.mk x "movie") ++
        tv.results.map (fun x => CombinedItem.mk x "tv")
    let sorted := combinedResults.insertionSort combinedLe
    .ok { results := sorted,
          total_results := mv.total_results + tv.total_results,
          total_pages := max mv.total_pages tv.total_pages }

theorem calculateTrendingScore_ge (today : ℤ) (m : Movie) (r : ℕ) :
    1 ≤ calculateTrendingScore today m r := by
  unfold calculateTrendingScore
  exact le_max_right _ _

theorem calculateTrendingScore_le (today : ℤ) (m : Movie) (r : ℕ) :
    calculateTrendingScore today m r ≤ 100 := by
  unfold calculateTrendingScore
  exact max_le (min_le_right _ _) (by norm_num)

theorem calculateStreamingReleaseRecency_ge (m : Movie) (wp : WatchProviders) (d : JSDays) :
    1 ≤ calculateStreamingReleaseRecency m wp d := by
  unfold calculateStreamingReleaseRecency
  refine le_min ?_ (by norm_num)
  repeat' split
  all_goals omega

theorem calculateStreamingReleaseRecency_le (m : Movie) (wp : WatchProviders) (d : JSDays) :
    calculateStreamingReleaseRecency m wp d ≤ 10 := by
  unfold calculateStreamingReleaseRecency
  exact min_le_right _ _

@[simp] theorem enrichMovie_id (tag : ℤ → Option String) (m : Movie) :
    (enrichMovie tag m).id = m.id := by
  unfold enrichMovie
  split <;> rfl

@[simp] theorem enrichMovie_release_date (tag : ℤ → Option String) (m : Movie) :
    (enrichMovie tag m).release_date = m.release_date := by
  unfold enrichMovie
  split <;> rfl

theorem dedupeAux_mem {x : Movie} :
    ∀ {l : List Movie} {seen : List ℤ}, x ∈ dedupeAux l seen → x ∈ l ∧ x.id ∉ seen := by
  intro l
  induction l with
  | nil => intro seen h; simp [dedupeAux] at h
  | cons m rest ih =>
    intro seen h
    rw [dedupeAux] at h
    by_cases hm : m.id ∈ seen
    · rw [if_pos hm] at h
      obtain ⟨h1, h2⟩ := ih h
      exact ⟨List.mem_cons_of_mem _ h1, h2⟩
    · rw [if_neg hm] at h
      rcases List.mem_cons.mp h with h1 | h2
      · exact ⟨h1 ▸ List.mem_cons_self _ _, h1 ▸ hm⟩
      · obtain ⟨h1, h2⟩ := ih h2
        refine ⟨List.mem_cons_of_mem _ h1, fun hc => h2 ?_⟩
        exact List.mem_cons_of_mem _ hc

theorem dedupeAux_pairwise :
    ∀ (l : List Movie) (seen : List ℤ),
      (dedupeAux l seen).Pairwise (fun a b => a.id ≠ b.id) := by
  intro l
  induction l with
  | nil => intro seen; simp [dedupeAux]
  | cons m rest ih =>
    intro seen
    rw [dedupeAux]
    by_cases hm : m.id ∈ seen
    · rw [if_pos hm]; exact ih seen
    · rw [if_neg hm]
      refine List.Pairwise.cons ?_ (ih (m.id :: seen))
      intro y hy
      have h2 := (dedupeAux_mem hy).2
      intro hc
      exact h2 (hc ▸ List.mem_cons_self _ _)

theorem dedupeById_pairwise (l : List Movie) :
    (dedupeById l).Pairwise (fun a b => a.id ≠ b.id) :=
  dedupeAux_pairwise l []

theorem annotateTrending_mem {today : ℤ} {x : TrendingItem} :
    ∀ {i : ℕ} {l : List Movie}, x ∈ annotateTrending today i l →
      ∃ m k, m ∈ l ∧ x = mkTrendingItem today m k := by
  intro i l
  induction l generalizing i with
  | nil => intro h; simp [annotateTrending] at h
  | cons m rest ih =>
    intro h
    rw [annotateTrending] at h
    rcases List.mem_cons.mp h with h1 | h2
    · exact ⟨m, i, List.mem_cons_self _ _, h1⟩
    · obtain ⟨m', k, hmem, hx⟩ := ih h2
      exact ⟨m', k, List.mem_cons_of_mem _ hmem, hx⟩

theorem annotateTrending_pairwise {today : ℤ} :
    ∀ {i : ℕ} {l : List Movie}, l.Pairwise (fun a b => a.id ≠ b.id) →
      (annotateTrending today i l).Pairwise (fun x y => x.movie.id ≠ y.movie.id) := by
  intro i l
  induction l generalizing i with
  | nil => intro _; simp [annotateTrending]
  | cons m rest ih =>
    intro h
    rw [annotateTrending]
    obtain ⟨hhead, htail⟩ := List.pairwise_cons.mp h
    refine List.Pairwise.cons ?_ (ih htail)
    intro y hy
    obtain ⟨m', k, hmem, hx⟩ := annotateTrending_mem hy
    have : y.movie = m' := by rw [hx]; rfl
    rw [this]
    exact hhead m' hmem

theorem mem_processOTTCandidates {today : ℤ} {wpf : ℤ → Except Unit WatchProviders}
    (P : OTTItem → Prop)
    (hpush : ∀ (m : Movie) (providers : WatchProviders),
      (6 ≤ calculateStreamingReleaseRecency m providers (getDaysSinceRelease today m.release_date) ∨
        (getDaysSinceRelease today m.release_date).jle 14 = true) →
      P (mkOTTItem m (getDaysSinceRelease today m.release_date)
          (calculateStreamingReleaseRecency m providers (getDaysSinceRelease today m.release_date)))) :
    ∀ (l : List Movie) (acc : List OTTItem), (∀ x ∈ acc, P x) →
      ∀ x ∈ processOTTCandidates today wpf l acc, P x := by
  intro l
  induction l with
  | nil => intro acc hacc x hx; rw [processOTTCandidates] at hx; exact hacc x hx
  | cons m rest ih =>
    intro acc hacc x hx
    rw [processOTTCandidates] at hx
    rcases hw : wpf m.id with e | providers
    · rw [hw] at hx
      exact ih acc hacc x hx
    · rw [hw] at hx
      simp only at hx
      set acc2 :=
        (if isOTTOriginal today m providers then
          if 6 ≤ calculateStreamingReleaseRecency m providers (getDaysSinceRelease today m.release_date) ∨
              (getDaysSinceRelease today m.release_date).jle 14 = true then
            acc ++ [mkOTTItem m (getDaysSinceRelease today m.release_date)
              (calculateStreamingReleaseRecency m providers (getDaysSinceRelease today m.release_date))]
          else acc
        else acc) with hacc2
      have hacc2P : ∀ y ∈ acc2, P y := by
        rw [hacc2]
        split_ifs with h1 h2
        · intro y hy
          rcases List.mem_append.mp hy with ha | hb
          · exact hacc y ha
          · rcases List.mem_singleton.mp hb with rfl
            exact hpush m providers h2
        · exact hacc
        · exact hacc
      by_cases hlen : 20 ≤ acc2.length
      · rw [if_pos hlen] at hx
        exact hacc2P x hx
      · rw [if_neg hlen] at hx
        exact ih acc2 hacc2P x hx

theorem processOTTCandidates_pairwise {today : ℤ} {wpf : ℤ → Except Unit WatchProviders} :
    ∀ (l : List Movie) (acc : List OTTItem),
      l.Pairwise (fun a b => a.id ≠ b.id) →
      acc.Pairwise (fun x y => x.movie.id ≠ y.movie.id) →
      (∀ x ∈ acc, ∀ m ∈ l, x.movie.id ≠ m.id) →
      (processOTTCandidates today wpf l acc).Pairwise (fun x y => x.movie.id ≠ y.movie.id) := by
  intro l
  induction l with
  | nil => intro acc _ hacc _; rw [processOTTCandidates]; exact hacc
  | cons m rest ih =>
    intro acc hl hacc hcross
    obtain ⟨hhead, htail⟩ := List.pairwise_cons.mp hl
    rw [processOTTCandidates]
    rcases hw : wpf m.id with e | providers
    · exact ih acc htail hacc fun x hx m' hm' => hcross x hx m' (List.mem_cons_of_mem _ hm')
    · simp only
      set acc2 :=
        (if isOTTOriginal today m providers then
          if 6 ≤ calculateStreamingReleaseRecency m providers (getDaysSinceRelease today m.release_date) ∨
              (getDaysSinceRelease today m.release_date).jle 14 = true then
            acc ++ [mkOTTItem m (getDaysSinceRelease today m.release_date)
              (calculateStreamingReleaseRecency m providers (getDaysSinceRelease today m.release_date))]
          else acc
        else acc) with hacc2
      have hp2 : acc2.Pairwise (fun x y => x.movie.id ≠ y.movie.id) ∧
          (∀ x ∈ acc2, ∀ m' ∈ rest, x.movie.id ≠ m'.id) := by
        rw [hacc2]
        split_ifs with h1 h2
        · constructor
          · refine List.pairwise_append.mpr ⟨hacc, by simp, ?_⟩
            intro x hx y hy
            rcases List.mem_singleton.mp hy with rfl
            exact hcross x hx m (List.mem_cons_self _ _)
          · intro x hx m' hm'
            rcases List.mem_append.mp hx with ha | hb
            · exact hcross x ha m' (List.mem_cons_of_mem _ hm')
            · rcases List.mem_singleton.mp hb with rfl
              exact hhead m' hm'
        · exact ⟨hacc, fun x hx m' hm' => hcross x hx m' (List.mem_cons_of_mem _ hm')⟩
        · exact ⟨hacc, fun x hx m' hm' => hcross x hx m' (List.mem_cons_of_mem _ hm')⟩
      by_cases hlen : 20 ≤ acc2.length
      · rw [if_pos hlen]; exact hp2.1
      · rw [if_neg hlen]; exact ih acc2 htail hp2.1 hp2.2

theorem mem_getStreamingNow {today : ℤ} {wpf : ℤ → Except Unit WatchProviders}
    {tag : ℤ → Option String} {batches : List (List Movie)} {x : OTTItem} :
    x ∈ getStreamingNow today wpf tag batches →
    ∃ y ∈ processOTTCandidates today wpf (dedupeById batches.flatten) [],
      x = { y with movie := enrichMovie tag y.movie } := by
  unfold getStreamingNow enrichOTTWithTaglines
  intro h
  obtain ⟨y, hy, hxy⟩ := List.mem_map.mp h
  exact ⟨y, (List.mem_insertionSort _).mp hy, hxy.symm⟩

theorem mem_getTrendingMovies {today : ℤ} {tag : ℤ → Option String}
    {pages : List (Option (List Movie))} {x : TrendingItem} :
    x ∈ getTrendingMovies today tag pages → ∃ m k, x = mkTrendingItem today m k := by
  unfold getTrendingMovies
  intro h
  obtain ⟨m, k, _, hx⟩ := annotateTrending_mem h
  exact ⟨m, k, hx⟩

/-! Spec-side scoring formulas for claim C1, written from the claim's words
so they can be compared with `calculateTrendingScore` as embedded from the
source.  Both take the 1-based `trending_rank` `r` the claim speaks about;
they differ only in the base term. -/

/-- The trending-score formula exactly as claim C1 states it: the item at
1-based `trending_rank` `r` starts at `100 - 5*r`, then receives the
popularity, vote and recency bonuses and is clamped to `[1, 100]`. -/
def claimedTrendingScore (today : ℤ) (r : ℤ) (movie : Movie) : ℤ :=
  let base : ℤ := 100 - 5 * r
  let popBonus : ℤ :=
    if jsGtQ movie.popularity 100 then 10
    else if jsGtQ movie.popularity 50 then 5
    else 0
  let voteBonus : ℤ :=
    if jsGeQ movie.vote_average 8 && jsGtInt movie.vote_count 1000 then 10
    else if jsGeQ movie.vote_average 7 && jsGtInt movie.vote_count 500 then 5
    else 0
  let recencyBonus : ℤ :=
    match movie.release_date with
    | none => 0
    | some s =>
      if s = "" then 0
      else
        let d := getDaysSinceRelease today (some s)
        if d.jle 30 then 15
        else if d.jle 90 then 10
        else if d.jle 180 then 5
        else 0
  max (min (base + popBonus + voteBonus + recencyBonus) 100) 1

/-- The amended trending-score formula: identical to the claimed one except
that the base term is `100 - 5*(r - 1)`, i.e. it uses the 0-based position
`r - 1` rather than the 1-based rank. -/
def amendedTrendingScore (today : ℤ) (r : ℤ) (movie : Movie) : ℤ :=
  let base : ℤ := 100 - 5 * (r - 1)
  let popBonus : ℤ :=
    if jsGtQ movie.popularity 100 then 10
    else if jsGtQ movie.popularity 50 then 5
    else 0
  let voteBonus : ℤ :=
    if jsGeQ movie.vote_average 8 && jsGtInt movie.vote_count 1000 then 10
    else if jsGeQ movie.vote_average 7 && jsGtInt movie.vote_count 500 then 5
    else 0
  let recencyBonus : ℤ :=
    match movie.release_date with
    | none => 0
    | some s =>
      if s = "" then 0
      else
        let d := getDaysSinceRelease today (some s)
        if d.jle 30 then 15
        else if d.jle 90 then 10
        else if d.jle 180 then 5
        else 0
  max (min (base + popBonus + voteBonus + recencyBonus) 100) 1

theorem calculateTrendingScore_eq_amended (today : ℤ) (m : Movie) (k : ℕ) :
    calculateTrendingScore today m k = amendedTrendingScore today ((k : ℤ) + 1) m := by
  unfold calculateTrendingScore amendedTrendingScore
  have hbase : (100 : ℤ) - (k : ℤ) * 5 = 100 - 5 * (((k : ℤ) + 1) - 1) := by ring
  rw [hbase]

/-- A trending-page movie with no optional data: it collects no bonus, so
its score is exactly the clamped base term. -/
def bareMovie : Movie := ⟨1, none, none, none, none, none, [], none⟩

/-- C1, counterexample.  Running the trending aggregation on a single page
containing one movie yields the item at 1-based `trending_rank` 1 with
`trending_score` 100 (the code starts the base at `100 - 5*index` with the
0-based index), while the claimed formula `100 - 5*r` at `r = 1` gives 95. -/
theorem trending_score_formula_counterexample :
    ∃ x, getTrendingMovies 20000 (fun _ => none) [some [bareMovie]] = [x] ∧
      x.trending_rank = 1 ∧ x.trending_score = 100 ∧
      claimedTrendingScore 20000 x.trending_rank x.movie = 95 ∧
      x.trending_score ≠ claimedTrendingScore 20000 x.trending_rank x.movie := by
  refine ⟨⟨⟨1, none, none, none, none, none, [], some ""⟩, 1, 100⟩, ?_, ?_, ?_, ?_, ?_⟩ <;> decide

/-- C1, amended.  Every item of a trending-movies aggregation result at
1-based `trending_rank` `r` carries
`trending_score = amendedTrendingScore today r movie`: the base term is
`100 - 5*(r - 1)`, and the popularity, vote and recency bonuses and the
clamp to `[1, 100]` are as the claim states them. -/
theorem trending_score_formula_amended (today : ℤ) (tag : ℤ → Option String)
    (pages : List (Option (List Movie))) (x : TrendingItem)
    (hx : x ∈ getTrendingMovies today tag pages) :
    x.trending_score = amendedTrendingScore today x.trending_rank x.movie := by
  obtain ⟨m, k, hxe⟩ := mem_getTrendingMovies hx
  rw [hxe]
  exact calculateTrendingScore_eq_amended today m k

/-- Witness for the amended C1 theorem at a concrete input. -/
theorem trending_score_formula_amended_witness :
    (⟨⟨1, none, none, none, none, none, [], some ""⟩, 1, 100⟩ : TrendingItem) ∈
        getTrendingMovies 20000 (fun _ => none) [some [bareMovie]] ∧
      (100 : ℤ) = amendedTrendingScore 20000 1 ⟨1, none, none, none, none, none, [], some ""⟩ :=
  ⟨by decide,
    trending_score_formula_amended 20000 (fun _ => none) [some [bareMovie]]
      ⟨⟨1, none, none, none, none, none, [], some ""⟩, 1, 100⟩ (by decide)⟩

/-- C2: every trending item's `trending_score` lies in `[1, 100]` (the code
clamps with `Math.max(Math.min(score, 100), 1)`), and every streaming-now
item's `streaming_release_score` lies in `[1, 10]` (base 5 plus nonnegative
bonuses, capped by `Math.min(score, 10)`), for all inputs. -/
theorem score_boundedness :
    (∀ (today : ℤ) (tag : ℤ → Option String) (pages : List (Option (List Movie)))
      (x : TrendingItem), x ∈ getTrendingMovies today tag pages →
        1 ≤ x.trending_score ∧ x.trending_score ≤ 100) ∧
    (∀ (today : ℤ) (wpf : ℤ → Except Unit WatchProviders) (tag : ℤ → Option String)
      (batches : List (List Movie)) (x : OTTItem), x ∈ getStreamingNow today wpf tag batches →
        1 ≤ x.streaming_release_score ∧ x.streaming_release_score ≤ 10) := by
  constructor
  · intro today tag pages x hx
    obtain ⟨m, k, hxe⟩ := mem_getTrendingMovies hx
    rw [hxe]
    exact ⟨calculateTrendingScore_ge today m k, calculateTrendingScore_le today m k⟩
  · intro today wpf tag batches x hx
    obtain ⟨y, hy, hxe⟩ := mem_getStreamingNow hx
    have hb : 1 ≤ y.streaming_release_score ∧ y.streaming_release_score ≤ 10 := by
      refine mem_processOTTCandidates
        (fun z => 1 ≤ z.streaming_release_score ∧ z.streaming_release_score ≤ 10)
        (fun m providers _ =>
          ⟨calculateStreamingReleaseRecency_ge m providers _,
            calculateStreamingReleaseRecency_le m providers _⟩)
        _ [] (by intro z hz; simp at hz) y hy
    rw [hxe]
    exact hb

/-- A candidate movie that qualifies as an OTT original (low vote count)
with a missing release date (JS `null` day count). -/
def ottCandidate : Movie := ⟨8, none, none, some 10, none, none, [], none⟩

/-- Witness for C2 at concrete inputs producing one item in each pipeline. -/
theorem score_boundedness_witness :
    (1 ≤ (100 : ℤ) ∧ (100 : ℤ) ≤ 100) ∧ (1 ≤ (9 : ℤ) ∧ (9 : ℤ) ≤ 10) :=
  ⟨score_boundedness.1 20000 (fun _ => none) [some [bareMovie]]
      ⟨⟨1, none, none, none, none, none, [], some ""⟩, 1, 100⟩ (by decide),
    score_boundedness.2 20000 (fun _ => .ok ⟨none⟩) (fun _ => none) [[ottCandidate]]
      ⟨⟨8, none, none, some 10, none, none, [], some ""⟩, true, .nullv, 9⟩ (by decide)⟩

/-- C4: every item of a streaming-now result satisfies the inclusion gate
`streaming_release_score >= 6 || daysSinceRelease <= 14` (part_009 line
265); contrapositively, an OTT-original candidate meeting neither
condition is never pushed into the output. -/
theorem streaming_now_inclusion_gate (today : ℤ) (wpf : ℤ → Except Unit WatchProviders)
    (tag : ℤ → Option String) (batches : List (List Movie)) (x : OTTItem)
    (hx : x ∈ getStreamingNow today wpf tag batches) :
    6 ≤ x.streaming_release_score ∨ x.days_since_release.jle 14 = true := by
  obtain ⟨y, hy, hxe⟩ := mem_getStreamingNow hx
  have hb : 6 ≤ y.streaming_release_score ∨ y.days_since_release.jle 14 = true :=
    mem_processOTTCandidates
      (fun z => 6 ≤ z.streaming_release_score ∨ z.days_since_release.jle 14 = true)
      (fun _ _ hgate => hgate) _ [] (by intro z hz; simp at hz) y hy
  rw [hxe]
  exact hb

/-- Witness for C4 at a concrete input. -/
theorem streaming_now_inclusion_gate_witness :
    6 ≤ (9 : ℤ) ∨ JSDays.nullv.jle 14 = true :=
  streaming_now_inclusion_gate 20000 (fun _ => .ok ⟨none⟩) (fun _ => none) [[ottCandidate]]
    ⟨⟨8, none, none, some 10, none, none, [], some ""⟩, true, .nullv, 9⟩ (by decide)

/-- First trending page of the C5 scenario: the item with id 550 appears at
1-based position 3. -/
def trendPageA : List Movie :=
  [⟨11, some 90, none, none, none, none, [], none⟩,
   ⟨12, some 85, none, none, none, none, [], none⟩,
   ⟨550, some 80, none, none, none, none, [], none⟩]

/-- Second trending page of the C5 scenario: the item with id 550 appears
again, at 1-based position 2. -/
def trendPageB : List Movie :=
  [⟨13, some 75, none, none, none, none, [], none⟩,
   ⟨550, some 70, none, none, none, none, [], none⟩]

/-- C5: no two entries of a trending or streaming-now aggregation result
share a movie id — both aggregations contain movies only, so ids coincide
with the `(id, mediaType)` identity keys — and merging two trending pages
that both contain id 550 yields exactly one item with id 550. -/
theorem aggregation_deduplication :
    (∀ (today : ℤ) (tag : ℤ → Option String) (pages : List (Option (List Movie))),
      (getTrendingMovies today tag pages).Pairwise (fun a b => a.movie.id ≠ b.movie.id)) ∧
    (∀ (today : ℤ) (wpf : ℤ → Except Unit WatchProviders) (tag : ℤ → Option String)
      (batches : List (List Movie)),
      (getStreamingNow today wpf tag batches).Pairwise (fun a b => a.movie.id ≠ b.movie.id)) ∧
    (getTrendingMovies 20000 (fun _ => none) [some trendPageA, some trendPageB]).countP
        (fun x => x.movie.id == 550) = 1 := by
  refine ⟨?_, ?_, by decide⟩
  · intro today tag pages
    unfold getTrendingMovies
    refine annotateTrending_pairwise ?_
    unfold enrichWithTaglines
    have hp : (List.insertionSort popDescLe
        (dedupeById (pages.filterMap id).flatten)).Pairwise (fun a b => a.id ≠ b.id) :=
      List.Pairwise.perm (dedupeById_pairwise _) (List.perm_insertionSort _ _).symm
        (fun h => h.symm)
    exact hp.map _ (fun a b h => by simpa using h)
  · intro today wpf tag batches
    unfold getStreamingNow enrichOTTWithTaglines
    have hp0 : (processOTTCandidates today wpf (dedupeById batches.flatten) []).Pairwise
        (fun x y => x.movie.id ≠ y.movie.id) :=
      processOTTCandidates_pairwise _ [] (dedupeById_pairwise _) (by simp)
        (by intro x hx; simp at hx)
    have hp : ((processOTTCandidates today wpf (dedupeById batches.flatten) []).insertionSort
        streamLe).Pairwise (fun x y => x.movie.id ≠ y.movie.id) :=
      List.Pairwise.perm hp0 (List.perm_insertionSort _ _).symm (fun h => h.symm)
    exact hp.map _ (fun a b h => by simpa using h)

theorem mem_getAnticipatedMovies_results {today : ℤ} {tag : ℤ → Option String}
    {results : List Movie} {ptotal : ℤ} {x : AnticipatedItem} :
    x ∈ (getAnticipatedMovies today tag results ptotal).results →
    ∃ m ∈ results, anticipatedKeep today m = true ∧
      x = mkAnticipatedItem today (enrichMovie tag m) := by
  unfold getAnticipatedMovies enrichWithTaglines
  intro h
  have h1 := (List.mem_insertionSort _).mp h
  obtain ⟨m', hm', hx⟩ := List.mem_map.mp h1
  obtain ⟨m, hm, hme⟩ := List.mem_map.mp hm'
  exact ⟨m, (List.mem_filter.mp hm).1, (List.mem_filter.mp hm).2, by rw [← hx, ← hme]⟩

theorem anticipatedKeep_spec {today : ℤ} {m : Movie} (h : anticipatedKeep today m = true) :
    ∃ s d, m.release_date = some s ∧ s ≠ "" ∧ dateValue s = some d ∧ today ≤ d := by
  unfold anticipatedKeep at h
  cases hrd : m.release_date with
  | none => rw [hrd] at h; simp at h
  | some s =>
    rw [hrd] at h
    by_cases hs : s = ""
    · simp [hs] at h
    · cases hdv : dateValue s with
      | none => simp [hs, hdv] at h
      | some d =>
        simp [hs, hdv] at h
        exact ⟨s, d, rfl, hs, hdv, h⟩

theorem getDaysUntilRelease_val {today : ℤ} {s : String} {d : ℤ}
    (hs : s ≠ "") (hdv : dateValue s = some d) :
    getDaysUntilRelease today (some s) = .val (d - today) := by
  unfold getDaysUntilRelease
  simp [hs, hdv]

/-- C6: every item of an anticipated-movies result carries a nonempty,
parseable release date on or after the start of today, with
`is_upcoming = true`; an input movie dated exactly today is kept, with
`days_until_release = 0`; and the response's `total_results` equals the
number of items remaining after the filter, whatever the provider's
original count was. -/
theorem anticipated_upcoming_filter (today : ℤ) (tag : ℤ → Option String)
    (results : List Movie) (ptotal : ℤ) :
    (∀ x ∈ (getAnticipatedMovies today tag results ptotal).results,
      x.is_upcoming = true ∧
      ∃ s d, x.movie.release_date = some s ∧ s ≠ "" ∧ dateValue s = some d ∧ today ≤ d ∧
        (d = today → x.days_until_release = .val 0)) ∧
    (∀ m ∈ results, ∀ s, m.release_date = some s → s ≠ "" → dateValue s = some today →
      ∃ x ∈ (getAnticipatedMovies today tag results ptotal).results,
        x.movie.id = m.id ∧ x.is_upcoming = true ∧ x.days_until_release = .val 0) ∧
    (getAnticipatedMovies today tag results ptotal).total_results =
      ((getAnticipatedMovies today tag results ptotal).results.length : ℤ) := by
  refine ⟨?_, ?_, rfl⟩
  · intro x hx
    obtain ⟨m, hm, hkeep, hxe⟩ := mem_getAnticipatedMovies_results hx
    obtain ⟨s, d, hrd, hs, hdv, hle⟩ := anticipatedKeep_spec hkeep
    subst hxe
    refine ⟨rfl, s, d, ?_, hs, hdv, hle, ?_⟩
    · show (enrichMovie tag m).release_date = some s
      rw [enrichMovie_release_date, hrd]
    · intro hd
      show getDaysUntilRelease today (enrichMovie tag m).release_date = .val 0
      rw [enrichMovie_release_date, hrd, getDaysUntilRelease_val hs hdv]
      rw [hd, sub_self]
  · intro m hm s hrd hs hdv
    have hkeep : anticipatedKeep today m = true := by
      unfold anticipatedKeep
      rw [hrd]
      simp [hs, hdv]
    refine ⟨mkAnticipatedItem today (enrichMovie tag m), ?_, ?_, rfl, ?_⟩
    · unfold getAnticipatedMovies enrichWithTaglines
      refine (List.mem_insertionSort _).mpr ?_
      exact List.mem_map.mpr ⟨enrichMovie tag m,
        List.mem_map.mpr ⟨m, List.mem_filter.mpr ⟨hm, hkeep⟩, rfl⟩, rfl⟩
    · show (enrichMovie tag m).id = m.id
      exact enrichMovie_id tag m
    · show getDaysUntilRelease today (enrichMovie tag m).release_date = .val 0
      rw [enrichMovie_release_date, hrd, getDaysUntilRelease_val hs hdv, sub_self]

/-- A movie dated 2030-01-01, used with that very day as "today". -/
def anticipatedToday : Movie := ⟨7, some 60, none, some 10, some "2030-01-01", none, [], none⟩

/-- Witness for C6 at a concrete input: a movie dated exactly today is kept
with `days_until_release = 0`, and the kept item satisfies the filter
invariant. -/
theorem anticipated_upcoming_filter_witness :
    (∃ x ∈ (getAnticipatedMovies 21915 (fun _ => none) [anticipatedToday] 5000).results,
      x.movie.id = anticipatedToday.id ∧ x.is_upcoming = true ∧
        x.days_until_release = .val 0) ∧
    ((⟨⟨7, some 60, none, some 10, some "2030-01-01", none, [], some ""⟩,
        "January 1, 2030", true, JSDays.val 0⟩ : AnticipatedItem).is_upcoming = true ∧
      ∃ s d, (some "2030-01-01" : Option String) = some s ∧ s ≠ "" ∧
        dateValue s = some d ∧ (21915 : ℤ) ≤ d ∧
        (d = 21915 → (JSDays.val 0 : JSDays) = .val 0)) :=
  ⟨(anticipated_upcoming_filter 21915 (fun _ => none) [anticipatedToday] 5000).2.1
      anticipatedToday (by decide) "2030-01-01" (by decide) (by decide) (by decide),
    (anticipated_upcoming_filter 21915 (fun _ => none) [anticipatedToday] 5000).1
      ⟨⟨7, some 60, none, some 10, some "2030-01-01", none, [], some ""⟩,
        "January 1, 2030", true, JSDays.val 0⟩ (by decide)⟩

/-- C7: `formatReleaseDate` maps a missing date to the literal `"TBA"`,
echoes a present-but-unparseable string back verbatim, and renders a valid
ISO date with the long English month name. -/
theorem format_release_date_scenarios :
    formatReleaseDate none = "TBA" ∧
    formatReleaseDate (some "not-a-date") = "not-a-date" ∧
    formatReleaseDate (some "2024-06-15") = "June 15, 2024" :=
  ⟨rfl, by decide, by decide⟩

instance : IsTotal CombinedItem combinedKeyLe :=
  ⟨fun _ _ => le_total _ _⟩

instance : IsTrans CombinedItem combinedKeyLe :=
  ⟨fun _ _ _ h1 h2 => le_trans h1 h2⟩

theorem orderedInsert_congr {α : Type} {r s : α → α → Prop}
    [DecidableRel r] [DecidableRel s] (a : α) :
    ∀ l : List α, (∀ b ∈ l, r a b ↔ s a b) →
      l.orderedInsert r a = l.orderedInsert s a := by
  intro l
  induction l with
  | nil => intro _; rfl
  | cons b t ih =>
    intro hab
    rw [List.orderedInsert, List.orderedInsert]
    by_cases hr : r a b
    · rw [if_pos hr, if_pos ((hab b (List.mem_cons_self _ _)).mp hr)]
    · rw [if_neg hr, if_neg fun hs => hr ((hab b (List.mem_cons_self _ _)).mpr hs)]
      rw [ih fun c hc => hab c (List.mem_cons_of_mem _ hc)]

theorem insertionSort_congr {α : Type} {r s : α → α → Prop}
    [DecidableRel r] [DecidableRel s] :
    ∀ l : List α, (∀ a ∈ l, ∀ b ∈ l, r a b ↔ s a b) →
      l.insertionSort r = l.insertionSort s := by
  intro l
  induction l with
  | nil => intro _; rfl
  | cons a t ih =>
    intro h
    rw [List.insertionSort, List.insertionSort]
    rw [ih fun x hx y hy => h x (List.mem_cons_of_mem _ hx) y (List.mem_cons_of_mem _ hy)]
    exact orderedInsert_congr a _ fun b hb =>
      h a (List.mem_cons_self _ _) b
        (List.mem_cons_of_mem _ ((List.mem_insertionSort _).mp hb))

/-- C9 (amended): the combined-upcoming operation fails as a whole when
either sub-fetch fails, and on success reports the sum of the sub-results'
`total_results`, the max of their `total_pages`, and a permutation of the
media-type-tagged concatenation; provided every concatenated item carries
a valid release-or-air date — where the JS comparator is consistent and
the stable sort's outcome is determined — the result is sorted ascending
by that date. -/
theorem combined_upcoming_contract (mres tres : Except Unit UpcomingData) :
    ((mres = .error () ∨ tres = .error ()) → getCombinedUpcoming mres tres = .error ()) ∧
    (∀ mv tv, mres = .ok mv → tres = .ok tv →
      ∃ out, getCombinedUpcoming mres tres = .ok out ∧
        out.total_results = mv.total_results + tv.total_results ∧
        out.total_pages = max mv.total_pages tv.total_pages ∧
        out.results.Perm
          (mv.results.map (fun x => CombinedItem.mk x "movie") ++
            tv.results.map (fun x => CombinedItem.mk x "tv")) ∧
        ((∀ x ∈ mv.results.map (fun x => CombinedItem.mk x "movie") ++
            tv.results.map (fun x => CombinedItem.mk x "tv"), (combinedKey x).isSome) →
          out.results.Pairwise (fun a b => ∀ dA dB, combinedKey a = some dA →
            combinedKey b = some dB → dA ≤ dB))) := by
  constructor
  · intro h
    rcases mres with e | mv
    · cases e
      rcases tres with e2 | tv
      · cases e2; rfl
      · rfl
    · rcases tres with e2 | tv
      · cases e2; rfl
      · rcases h with h | h <;> exact absurd h (by simp)
  · intro mv tv hm ht
    subst hm
    subst ht
    refine ⟨_, rfl, rfl, rfl, List.perm_insertionSort _ _, ?_⟩
    intro hvalid
    have hagree : ∀ a ∈ mv.results.map (fun x => CombinedItem.mk x "movie") ++
        tv.results.map (fun x => CombinedItem.mk x "tv"),
        ∀ b ∈ mv.results.map (fun x => CombinedItem.mk x "movie") ++
          tv.results.map (fun x => CombinedItem.mk x "tv"),
        (combinedLe a b ↔ combinedKeyLe a b) := by
      intro a ha b hb
      have hA := hvalid a ha
      have hB := hvalid b hb
      cases hka : combinedKey a with
      | none => rw [hka] at hA; simp at hA
      | some dA =>
        cases hkb : combinedKey b with
        | none => rw [hkb] at hB; simp at hB
        | some dB =>
          unfold combinedLe combinedKeyLe
          rw [hka, hkb]
          simp
    show ((mv.results.map (fun x => CombinedItem.mk x "movie") ++
        tv.results.map (fun x => CombinedItem.mk x "tv")).insertionSort combinedLe).Pairwise _
    rw [insertionSort_congr _ hagree]
    have hs := List.sorted_insertionSort combinedKeyLe
      (mv.results.map (fun x => CombinedItem.mk x "movie") ++
        tv.results.map (fun x => CombinedItem.mk x "tv"))
    refine List.Pairwise.imp ?_ hs
    intro a b hab dA dB hA hB
    have h2 : (combinedKey a).getD 0 ≤ (combinedKey b).getD 0 := hab
    rw [hA, hB] at h2
    simpa using h2

/-- An upcoming-movies sub-result with one dated item. -/
def upMoviesData : UpcomingData :=
  ⟨[⟨⟨21, none, none, none, some "2030-01-05", none, [], some ""⟩, "January 5, 2030", true⟩],
    10, 3⟩

/-- An upcoming-TV sub-result with one dated item. -/
def upTVData : UpcomingData :=
  ⟨[⟨⟨22, none, none, none, none, some "2030-01-02", [], some ""⟩, "January 2, 2030", true⟩],
    5, 7⟩

/-- Witness for C9 at concrete inputs: a failing TV sub-fetch fails the
operation, and a successful pair of all-dated sub-results yields the
summed/maxed envelope with a date-sorted result list. -/
theorem combined_upcoming_contract_witness :
    getCombinedUpcoming (.ok upMoviesData) (.error ()) = .error () ∧
    (∃ out, getCombinedUpcoming (.ok upMoviesData) (.ok upTVData) = .ok out ∧
      out.total_results = upMoviesData.total_results + upTVData.total_results ∧
      out.total_pages = max upMoviesData.total_pages upTVData.total_pages ∧
      out.results.Pairwise (fun a b => ∀ dA dB, combinedKey a = some dA →
        combinedKey b = some dB → dA ≤ dB)) := by
  refine ⟨(combined_upcoming_contract (.ok upMoviesData) (.error ())).1 (Or.inr rfl), ?_⟩
  obtain ⟨out, h1, h2, h3, _, h5⟩ :=
    (combined_upcoming_contract (.ok upMoviesData) (.ok upTVData)).2
      upMoviesData upTVData rfl rfl
  exact ⟨out, h1, h2, h3, h5 (by decide)⟩

/-- An upcoming-movies sub-result containing a movie dated 2031-01-01
followed by one with no date at all. -/
def mvMixedData : UpcomingData :=
  ⟨[⟨⟨31, none, none, none, some "2031-01-01", none, [], some ""⟩, "January 1, 2031", true⟩,
    ⟨⟨32, none, none, none, none, none, [], some ""⟩, "TBA", false⟩], 2, 1⟩

/-- An upcoming-TV sub-result with one show dated 2030-01-01. -/
def tvDatedData : UpcomingData :=
  ⟨[⟨⟨33, none, none, none, none, some "2030-01-01", [], some ""⟩, "January 1, 2030", true⟩], 1, 1⟩

/-- The 2031-dated combined item (day 22280). -/
def cItem2031 : CombinedItem :=
  ⟨⟨⟨31, none, none, none, some "2031-01-01", none, [], some ""⟩, "January 1, 2031", true⟩, "movie"⟩

/-- The undated combined item (`NaN` sort key). -/
def cItemUndated : CombinedItem :=
  ⟨⟨⟨32, none, none, none, none, none, [], some ""⟩, "TBA", false⟩, "movie"⟩

/-- The 2030-dated combined item (day 21915). -/
def cItem2030 : CombinedItem :=
  ⟨⟨⟨33, none, none, none, none, some "2030-01-01", [], some ""⟩, "January 1, 2030", true⟩, "tv"⟩

/-- C9, counterexample.  An undated item's sort key is `NaN` and the ES
`SortCompare` operation maps a `NaN` comparator result to `+0`, so the
undated item compares equal to both neighbours: on the concatenation
`[dated 2031-01-01, undated, dated 2030-01-01]` every adjacent pair is
already "in order" and the stable sort returns the list unchanged — the
item dated 2031 precedes the item dated 2030, so the output is not sorted
ascending by release-or-air date on its validly dated items. -/
theorem combined_upcoming_sort_counterexample :
    getCombinedUpcoming (.ok mvMixedData) (.ok tvDatedData) =
      .ok ⟨[cItem2031, cItemUndated, cItem2030], 3, 1⟩ ∧
    combinedKey cItem2031 = some 22280 ∧
    combinedKey cItemUndated = none ∧
    combinedKey cItem2030 = some 21915 ∧
    ¬ [cItem2031, cItemUndated, cItem2030].Pairwise (fun a b => ∀ dA dB,
        combinedKey a = some dA → combinedKey b = some dB → dA ≤ dB) := by
  refine ⟨by rfl, by decide, by decide, by decide, ?_⟩
  intro hp
  have h1 := (List.pairwise_cons.mp hp).1 cItem2030
    (List.mem_cons_of_mem _ (List.mem_cons_self _ _))
  have h2 := h1 22280 21915 (by decide) (by decide)
  omega

theorem isUpcoming_spec {today : ℤ} {rd : Option String} (h : isUpcoming today rd = true) :
    ∃ s d, rd = some s ∧ s ≠ "" ∧ dateValue s = some d ∧ today ≤ d := by
  unfold isUpcoming at h
  cases hrd : rd with
  | none => rw [hrd] at h; simp at h
  | some s =>
    rw [hrd] at h
    by_cases hs : s = ""
    · simp [hs] at h
    · cases hdv : dateValue s with
      | none => simp [hs, hdv] at h
      | some d =>
        simp [hs, hdv] at h
        exact ⟨s, d, rfl, hs, hdv, h⟩

/-- C10: `isUpcoming` is false on a missing (null or empty) date string and
on any string that does not parse as a date; consequently an item of an
upcoming-movies result is annotated `is_upcoming = true` only when it
carries a nonempty, parseable date on or after the start of today. -/
theorem upcoming_flag_guard (today : ℤ) :
    isUpcoming today none = false ∧
    isUpcoming today (some "") = false ∧
    (∀ s, dateValue s = none → isUpcoming today (some s) = false) ∧
    (∀ (tag : ℤ → Option String) (results : List Movie) (x : UpcomingItem),
      x ∈ getUpcomingMovies today tag results → x.is_upcoming = true →
      ∃ s d, x.movie.release_date = some s ∧ s ≠ "" ∧ dateValue s = some d ∧ today ≤ d) := by
  refine ⟨rfl, rfl, ?_, ?_⟩
  · intro s hdv
    unfold isUpcoming
    by_cases hs : s = ""
    · simp [hs]
    · simp [hs, hdv]
  · intro tag results x hx hup
    unfold getUpcomingMovies at hx
    obtain ⟨m, _, hxe⟩ := List.mem_map.mp hx
    subst hxe
    exact isUpcoming_spec hup

/-- A movie dated 2030-01-01 for the C10 witness. -/
def upcomingMovie : Movie := ⟨9, none, none, none, some "2030-01-01", none, [], none⟩

/-- Witness for C10 at concrete inputs: an unparseable date string is not
upcoming, and the one item annotated upcoming carries a parseable future
date. -/
theorem upcoming_flag_guard_witness :
    isUpcoming 0 (some "not-a-date") = false ∧
    (∃ s d, (⟨⟨9, none, none, none, some "2030-01-01", none, [], some ""⟩,
        "January 1, 2030", true⟩ : UpcomingItem).movie.release_date = some s ∧
      s ≠ "" ∧ dateValue s = some d ∧ (0 : ℤ) ≤ d) :=
  ⟨(upcoming_flag_guard 0).2.2.1 "not-a-date" (by decide),
    (upcoming_flag_guard 0).2.2.2 (fun _ => none) [upcomingMovie]
      ⟨⟨9, none, none, none, some "2030-01-01", none, [], some ""⟩, "January 1, 2030", true⟩
      (by decide) rfl⟩

/-- A streaming-now candidate released exactly today: `days_since_release`
is the number `0`, which is falsy in JS. -/
def ottDayZero : OTTItem :=
  ⟨⟨101, none, none, some 10, some "2030-01-01", none, [], none⟩, true, .val 0, 9⟩

/-- A streaming-now candidate released five days ago, with the same
`streaming_release_score`. -/
def ottDayFive : OTTItem :=
  ⟨⟨102, some 60, none, some 10, some "2029-12-27", none, [], none⟩, true, .val 5, 9⟩

/-- C3 (code bug).  The comparator reads
`a.days_since_release || 999999`, and the number `0` is falsy in JS, so a
candidate released today is treated as 999999 days old: with equal scores,
the comparator ranks the 0-day-old candidate after the 5-day-old one —
against the claim and against the code's own comments ("Smaller days = more
recent = higher priority") — and the full pipeline run on two such movies
returns the movie released today last.  The claim's concrete scenario 4
itself (2 days vs 10 days, nonzero day counts) does sort correctly. -/
theorem streaming_sort_day_zero_bug :
    (ottDayZero.streaming_release_score = ottDayFive.streaming_release_score ∧
      ottDayZero.days_since_release = .val 0 ∧ ottDayFive.days_since_release = .val 5) ∧
    streamCmp ottDayZero ottDayFive = .num 1 ∧
    streamCmp ottDayFive ottDayZero = .num (-1) ∧
    (getStreamingNow 21915 (fun _ => .ok ⟨none⟩) (fun _ => none)
        [[⟨101, none, none, some 10, some "2030-01-01", none, [], none⟩,
          ⟨102, some 60, none, some 10, some "2029-12-27", none, [], none⟩]]).map
        (fun x => (x.movie.id, x.days_since_release)) =
      [(102, .val 5), (101, .val 0)] ∧
    streamCmp ⟨⟨103, none, none, none, none, none, [], none⟩, true, .val 2, 8⟩
        ⟨⟨104, none, none, none, none, none, [], none⟩, true, .val 10, 8⟩ = .num (-1) := by
  refine ⟨⟨by decide, by decide, by decide⟩, by decide, by decide, by decide, by decide⟩

end TmdbTester
